import Mathlib

/-! Shallow embedding of the image-transform core of the biggify bot:
the functions `biggify_image` and `merge_images` of `biggify_image.py`.
Python floats are modelled as exact rationals, Python `int(x)` as
truncation toward zero, PIL rasters as records with a total pixel
function, and the PIL codec (decode/encode of byte strings) as an
explicit `Codec` parameter, since the image codec is an external
capability treated as a collaborator of the program. -/

namespace Biggify

/-- Model of a decoded PIL raster: dimensions, pixel mode (for example
"RGB"), the originating encoding format (`PIL.Image.format`, `none` when
unknown), and a total pixel-value function with pixel values abstracted
as naturals. -/
structure Image where
  width : Nat
  height : Nat
  mode : String
  format : Option String
  pix : Nat → Nat → Nat

/-- Python `int(x)` applied to a real number: truncation toward zero,
which is the floor for nonnegative arguments and the ceiling for
negative ones. -/
def pyInt (q : ℚ) : Int := if 0 ≤ q then ⌊q⌋ else ⌈q⌉

/-- PIL `img.resize((w, h))`: the result has exactly the requested
dimensions and keeps the mode and format of the source. The LANCZOS
resampling weights are not modelled: the pixel function is a
nearest-neighbour stand-in, and no claim depends on resampled pixel
values. -/
def Image.resize (img : Image) (w h : Int) : Image :=
  { width := w.toNat, height := h.toNat, mode := img.mode, format := img.format,
    pix := fun x y => img.pix (x * img.width / w.toNat) (y * img.height / h.toNat) }

/-- PIL `img.crop((left, top, right, bottom))`: the result has size
`(right - left, bottom - top)` and reads source pixels offset by
`(left, top)`, with positions outside the source filled with 0. -/
def Image.crop (img : Image) (left top right bottom : Int) : Image :=
  { width := (right - left).toNat, height := (bottom - top).toNat,
    mode := img.mode, format := img.format,
    pix := fun x y =>
      if 0 ≤ left + (x : Int) ∧ left + (x : Int) < (img.width : Int) ∧
          0 ≤ top + (y : Int) ∧ top + (y : Int) < (img.height : Int)
      then img.pix (left + (x : Int)).toNat (top + (y : Int)).toNat else 0 }

/-- PIL `Image.new(mode, (w, h))`: a blank canvas with the default fill 0
(black) and no originating encoding format. -/
def Image.new (mode : String) (w h : Nat) : Image :=
  { width := w, height := h, mode := mode, format := none, pix := fun _ _ => 0 }

/-- PIL `canvas.paste(img, (x0, y0))`: overwrites the rectangle of the
canvas starting at `(x0, y0)` with the pasted image's pixels; every other
canvas pixel, and the canvas dimensions and metadata, are unchanged. -/
def Image.paste (canvas img : Image) (x0 y0 : Nat) : Image :=
  { canvas with pix := fun x y =>
      if x0 ≤ x ∧ x < x0 + img.width ∧ y0 ≤ y ∧ y < y0 + img.height
      then img.pix (x - x0) (y - y0) else canvas.pix x y }

/-- Model of an `io.BytesIO` output buffer: the written bytes plus the
current stream position. -/
structure ByteBuffer (β : Type) where
  data : β
  pos : Nat

/-- Python `buffer.seek(p)`. -/
def ByteBuffer.seek {β : Type} (b : ByteBuffer β) (p : Nat) : ByteBuffer β :=
  { b with pos := p }

/-- The external image codec (PIL), over an abstract type `β` of byte
strings: decoding may fail on malformed bytes, encoding a raster to a
named format may fail, and `size` gives the byte length of an encoded
output (used only for the stream position left behind by a write). -/
structure Codec (β : Type) where
  decode : β → Except String Image
  encode : Image → String → Except String β
  size : β → Nat

/-- PIL `img.save(buffer, format=fmt)` on a fresh `io.BytesIO()`: writes
the encoded bytes into the buffer, leaving the stream position at the end
of the written data. -/
def Codec.save {β : Type} (c : Codec β) (img : Image) (fmt : String) :
    Except String (ByteBuffer β) :=
  (c.encode img fmt).map fun d => { data := d, pos := c.size d }

/-- Sequencing of a fallible step over a list, modelling a Python `for`
loop that appends one result per iteration inside a `try` block: the
first raised exception aborts the whole loop and no partial list of
results survives. -/
def mapE {α γ : Type} (f : α → Except String γ) : List α → Except String (List γ)
  | [] => .ok []
  | a :: as => (f a).bind fun b => (mapE f as).map fun bs => b :: bs

/-- Line 45 of `biggify_image.py`:
`stretched_width = int(current_width * stretch_factor)`. -/
def stretchedWidth (w : Nat) (stretch_factor : ℚ) : Nat :=
  (pyInt ((w : ℚ) * stretch_factor)).toNat

/-- Line 48: `img_for_processing.resize((stretched_width, current_height),
Image.LANCZOS)`. -/
def stretchImage (img : Image) (stretch_factor : ℚ) : Image :=
  img.resize (pyInt ((img.width : ℚ) * stretch_factor)) (img.height : Int)

/-- Lines 54 and 61: `part_height = current_height / rows` and
`top = int(r * part_height)`. -/
def stripTop (H : Nat) (rows : Int) (r : Nat) : Nat :=
  (pyInt ((r : ℚ) * ((H : ℚ) / ((rows : Int) : ℚ)))).toNat

/-- Lines 63 to 67: `bottom = int((r + 1) * part_height)`, overridden to
the full stretched height for the last strip (`r == rows - 1`). -/
def stripBottom (H : Nat) (rows : Int) (r : Nat) : Nat :=
  if (r : Int) = rows - 1 then H
  else (pyInt (((r : ℚ) + 1) * ((H : ℚ) / ((rows : Int) : ℚ)))).toNat

/-- Lines 59 to 72: the crop box `(0, top, current_width, bottom)` applied
to the stretched image. -/
def cropStrip (stretched : Image) (rows : Int) (r : Nat) : Image :=
  stretched.crop 0 (stripTop stretched.height rows r) (stretched.width : Int)
    (stripBottom stretched.height rows r)

/-- Lines 75 to 78: rescale the cropped strip by `output_scale_factor` in
both dimensions, unless the factor is exactly 1.0. -/
def rescaleStrip (output_scale_factor : ℚ) (strip : Image) : Image :=
  if output_scale_factor ≠ 1 then
    strip.resize (pyInt ((strip.width : ℚ) * output_scale_factor))
      (pyInt ((strip.height : ℚ) * output_scale_factor))
  else strip

/-- Line 83: `original_img.format if original_img.format else "PNG"`.
Python truthiness: both `None` and the empty string fall back to "PNG". -/
def outputFormat : Option String → String
  | some s => if s = ("") then ("PNG") else s
  | none => ("PNG")

/-- Body of `biggify_image` (the `try` block, lines 23 to 87): decode,
the three validation checks in order (each returning an empty list),
stretch, then the strip loop producing one rewound buffer per strip. -/
def biggifyBody {β : Type} (c : Codec β) (image_bytes : β) (rows : Int)
    (stretch_factor output_scale_factor : ℚ) : Except String (List (ByteBuffer β)) :=
  (c.decode image_bytes).bind fun original_img =>
  if rows ≤ 0 then .ok []
  else if ¬ ((1 : ℚ) ≤ stretch_factor ∧ stretch_factor ≤ 3) then .ok []
  else if ¬ ((1 : ℚ) / 2 ≤ output_scale_factor ∧ output_scale_factor ≤ 4) then .ok []
  else
    mapE (fun r =>
        (c.save
            (rescaleStrip output_scale_factor
              (cropStrip (stretchImage original_img stretch_factor) rows r))
            (outputFormat original_img.format)).map fun buf => buf.seek 0)
      (List.range rows.toNat)

/-- Function `biggify_image` (lines 4 to 90): any exception raised inside
the body is caught at the function boundary and collapsed to the empty
list. -/
def biggify_image {β : Type} (c : Codec β) (image_bytes : β) (rows : Int)
    (stretch_factor output_scale_factor : ℚ) : List (ByteBuffer β) :=
  match biggifyBody c image_bytes rows stretch_factor output_scale_factor with
  | .ok l => l
  | .error _ => []

/-- Lines 169 to 172 of `biggify_image.py`: paste each raster at vertical
offset equal to the cumulative height of the previously pasted rasters. -/
def pasteAll : Image → Nat → List Image → Image
  | canvas, _, [] => canvas
  | canvas, offset, img :: rest =>
    pasteAll (canvas.paste img 0 offset) (offset + img.height) rest

/-- Body of `merge_images` (the `try` block, lines 154 to 178): decode
every element, size the canvas from the first raster's width and the
summed heights, paste all rasters top to bottom, encode as PNG, rewind. -/
def mergeBody {β : Type} (c : Codec β) (image_bytes_list : List β) :
    Except String (ByteBuffer β) :=
  (mapE c.decode image_bytes_list).bind fun images =>
  match images.head? with
  | none => .error ("list index out of range")
  | some first =>
    (c.save
        (pasteAll (Image.new ("RGB") first.width ((images.map Image.height).sum)) 0 images)
        ("PNG")).map fun buf => buf.seek 0

/-- Function `merge_images` (lines 140 to 182): an empty input list fails
before the `try` block is entered; any exception raised inside the body
is caught and collapsed to `none`. -/
def merge_images {β : Type} (c : Codec β) (image_bytes_list : List β) :
    Option (ByteBuffer β) :=
  if image_bytes_list.isEmpty then none
  else
    match mergeBody c image_bytes_list with
    | .ok buf => some buf
    | .error _ => none

/-- Symbolic byte strings used for concrete test inputs: either raw
(undecodable) bytes or the encoding of a raster in a given format. -/
inductive SymBytes where
  | raw : List Nat → SymBytes
  | enc : String → Image → SymBytes

/-- A concrete well-behaved codec over `SymBytes`: raw bytes fail to
decode, an encoded raster decodes back to itself with its container
format recorded, encoding always succeeds, and the byte length of an
encoded raster is measured by its pixel count. -/
def SymCodec : Codec SymBytes where
  decode := fun b => match b with
    | .raw _ => .error ("cannot identify image file")
    | .enc fmt img => .ok { img with format := some fmt }
  encode := fun img fmt => .ok (.enc fmt img)
  size := fun b => match b with
    | .raw l => l.length
    | .enc _ img => img.width * img.height

/-! Arithmetic facts about the strip bounds. -/

/-- Truncation agrees with the floor on nonnegative rationals. -/
lemma pyInt_of_nonneg {q : ℚ} (h : 0 ≤ q) : pyInt q = ⌊q⌋ := if_pos h

/-- The top bound of strip `r` is the floor of `r * H / rows`, which over
the exact rational `part_height` is the natural-number division
`r * H / rows`. -/
lemma stripTop_eq (H n r : ℕ) : stripTop H (n : Int) r = r * H / n := by
  unfold stripTop pyInt
  have hq : (r : ℚ) * ((H : ℚ) / (((n : Int) : Int) : ℚ)) = ((r * H : ℕ) : ℚ) / ((n : ℕ) : ℚ) := by
    push_cast
    ring
  rw [hq, if_pos (by positivity), Int.floor_toNat, Nat.floor_div_nat, Nat.floor_natCast]

/-- Away from the last strip, the bottom bound of strip `r` is the top
bound of strip `r + 1`. -/
lemma stripBottom_of_ne (H n r : ℕ) (h : (r : Int) ≠ (n : Int) - 1) :
    stripBottom H (n : Int) r = stripTop H (n : Int) (r + 1) := by
  unfold stripBottom stripTop
  rw [if_neg h]
  have hc : ((r : ℚ) + 1) = (((r + 1 : ℕ)) : ℚ) := by push_cast; ring
  rw [hc]

/-- The last strip's bottom bound is forced to the stretched height. -/
lemma stripBottom_last (H n : ℕ) (hn : 0 < n) : stripBottom H (n : Int) (n - 1) = H := by
  unfold stripBottom
  rw [if_pos (show (((n - 1 : ℕ)) : Int) = (n : Int) - 1 by omega)]

/-- Every strip's bottom bound equals `(r + 1) * H / n` for `r < n`: the
forced last bottom agrees with the division formula at `r = n - 1`. -/
lemma stripBottom_eq (H n r : ℕ) (hn : 0 < n) (hr : r < n) :
    stripBottom H (n : Int) r = (r + 1) * H / n := by
  by_cases h : (r : Int) = (n : Int) - 1
  · have hrn : r = n - 1 := by omega
    subst hrn
    rw [stripBottom_last H n hn]
    have hn1 : n - 1 + 1 = n := by omega
    rw [hn1, Nat.mul_div_cancel_left H hn]
  · rw [stripBottom_of_ne H n r h, stripTop_eq]

/-- The tops are monotone in the strip index. -/
lemma stripTop_mono (H n : ℕ) {r s : ℕ} (h : r ≤ s) :
    stripTop H (n : Int) r ≤ stripTop H (n : Int) s := by
  rw [stripTop_eq, stripTop_eq]
  exact Nat.div_le_div_right (Nat.mul_le_mul_right H h)

/-- List-to-finset bridge for sums over `List.range`. -/
lemma list_range_map_sum (f : ℕ → ℕ) (n : ℕ) :
    ((List.range n).map f).sum = ∑ r ∈ Finset.range n, f r := by
  induction n with
  | zero => simp
  | succ m ih => simp [List.range_succ, Finset.sum_range_succ, ih]

/-- The strip heights telescope: they sum to exactly the stretched
height. -/
lemma strip_heights_sum (H n : ℕ) (hn : 0 < n) :
    ((List.range n).map fun r => stripBottom H (n : Int) r - stripTop H (n : Int) r).sum = H := by
  rw [list_range_map_sum]
  have hcong : ∀ r ∈ Finset.range n,
      stripBottom H (n : Int) r - stripTop H (n : Int) r =
        (fun k => k * H / n) (r + 1) - (fun k => k * H / n) r := by
    intro r hr
    rw [Finset.mem_range] at hr
    simp only
    rw [stripBottom_eq H n r hn hr, stripTop_eq]
  rw [Finset.sum_congr rfl hcong]
  have hmono : Monotone fun k => k * H / n := by
    intro a b hab
    exact Nat.div_le_div_right (Nat.mul_le_mul_right H hab)
  rw [Finset.sum_range_tsub hmono]
  simp [Nat.mul_div_cancel_left H hn]

/-- Dimensions of the crop box: full stretched width, height
`bottom - top`. -/
lemma cropStrip_dims (stretched : Image) (rows : Int) (r : Nat) :
    (cropStrip stretched rows r).width = stretched.width ∧
      (cropStrip stretched rows r).height =
        stripBottom stretched.height rows r - stripTop stretched.height rows r := by
  constructor
  · show ((stretched.width : Int) - 0).toNat = stretched.width
    simp
  · exact Int.toNat_sub _ _

/-! Facts about the fallible loop `mapE`. -/

/-- A successful loop produces one result per input. -/
lemma mapE_length {α γ : Type} (f : α → Except String γ) :
    ∀ (l : List α) (res : List γ), mapE f l = .ok res → res.length = l.length := by
  intro l
  induction l with
  | nil => intro res h; cases h; rfl
  | cons a as ih =>
    intro res h
    unfold mapE at h
    cases hfa : f a with
    | error e => rw [hfa] at h; cases h
    | ok b =>
      rw [hfa] at h
      cases hrest : mapE f as with
      | error e => rw [hrest] at h; cases h
      | ok bs =>
        rw [hrest] at h
        cases h
        simp [ih bs hrest]

/-- Every member of a successful loop's output is the successful image of
some input. -/
lemma mapE_mem {α γ : Type} (f : α → Except String γ) :
    ∀ (l : List α) (res : List γ), mapE f l = .ok res →
      ∀ b ∈ res, ∃ a ∈ l, f a = .ok b := by
  intro l
  induction l with
  | nil => intro res h; cases h; intro b hb; cases hb
  | cons a as ih =>
    intro res h
    unfold mapE at h
    cases hfa : f a with
    | error e => rw [hfa] at h; cases h
    | ok b0 =>
      rw [hfa] at h
      cases hrest : mapE f as with
      | error e => rw [hrest] at h; cases h
      | ok bs =>
        rw [hrest] at h
        cases h
        intro b hb
        rcases List.mem_cons.mp hb with hb | hb
        · exact ⟨a, List.mem_cons_self a as, hb ▸ hfa⟩
        · rcases ih bs hrest b hb with ⟨a2, ha2, hfa2⟩
          exact ⟨a2, List.mem_cons_of_mem a ha2, hfa2⟩

/-- If every step succeeds, the loop succeeds. -/
lemma mapE_ok {α γ : Type} (f : α → Except String γ) :
    ∀ l : List α, (∀ a ∈ l, ∃ b, f a = .ok b) → ∃ res, mapE f l = .ok res := by
  intro l
  induction l with
  | nil => intro _; exact ⟨[], rfl⟩
  | cons a as ih =>
    intro h
    rcases h a (List.mem_cons_self a as) with ⟨b, hb⟩
    rcases ih (fun x hx => h x (List.mem_cons_of_mem a hx)) with ⟨bs, hbs⟩
    exact ⟨b :: bs, by unfold mapE; rw [hb, hbs]; rfl⟩

/-- If any step raises, the loop raises. -/
lemma mapE_error {α γ : Type} (f : α → Except String γ) :
    ∀ (l : List α) (a : α) (e : String), a ∈ l → f a = .error e →
      ∃ msg, mapE f l = .error msg := by
  intro l
  induction l with
  | nil => intro a e ha; cases ha
  | cons x xs ih =>
    intro a e ha hfa
    unfold mapE
    rcases List.mem_cons.mp ha with h | h
    · subst h
      exact ⟨e, by rw [hfa]; rfl⟩
    · cases hfx : f x with
      | error e2 => exact ⟨e2, rfl⟩
      | ok b =>
        rcases ih a e h hfa with ⟨msg, hmsg⟩
        exact ⟨msg, by rw [hmsg]; rfl⟩

/-! Facts about `pasteAll`. -/

/-- Pasting changes no dimensions or metadata of the canvas. -/
lemma pasteAll_shape :
    ∀ (l : List Image) (c0 : Image) (offset : Nat),
      (pasteAll c0 offset l).width = c0.width ∧
        (pasteAll c0 offset l).height = c0.height ∧
        (pasteAll c0 offset l).mode = c0.mode := by
  intro l
  induction l with
  | nil => intro c0 offset; exact ⟨rfl, rfl, rfl⟩
  | cons img rest ih => intro c0 offset; exact ih (c0.paste img 0 offset) (offset + img.height)

/-- Pasting a run of images starting at `offset` leaves every pixel above
`offset` untouched. -/
lemma pasteAll_pix_above :
    ∀ (l : List Image) (c0 : Image) (offset x y : Nat), y < offset →
      (pasteAll c0 offset l).pix x y = c0.pix x y := by
  intro l
  induction l with
  | nil => intro c0 offset x y _; rfl
  | cons img rest ih =>
    intro c0 offset x y hy
    have h1 := ih (c0.paste img 0 offset) (offset + img.height) x y (by omega)
    rw [pasteAll, h1]
    unfold Image.paste
    simp only
    rw [if_neg (by omega)]

/-- Inside the band of the `i`-th pasted image, the canvas shows exactly
that image's pixels. -/
lemma pasteAll_pix_band :
    ∀ (l : List Image) (i : Nat) (hi : i < l.length) (c0 : Image) (offset x dy : Nat),
      x < (l.get ⟨i, hi⟩).width → dy < (l.get ⟨i, hi⟩).height →
      (pasteAll c0 offset l).pix x (offset + ((l.take i).map Image.height).sum + dy) =
        (l.get ⟨i, hi⟩).pix x dy := by
  intro l
  induction l with
  | nil => intro i hi; cases hi
  | cons img rest ih =>
    intro i hi c0 offset x dy hx hdy
    cases i with
    | zero =>
      simp only [List.take_zero, List.map_nil, List.sum_nil, Nat.add_zero]
      rw [pasteAll]
      rw [pasteAll_pix_above rest (c0.paste img 0 offset) (offset + img.height) x (offset + dy)
        (by simp only [List.get] at hdy; omega)]
      unfold Image.paste
      simp only [List.get] at hx hdy
      simp only
      rw [if_pos (by omega)]
      congr 1
      omega
    | succ j =>
      have hj : j < rest.length := by simpa using hi
      have hcoord : offset + (((img :: rest).take (j + 1)).map Image.height).sum + dy =
          (offset + img.height) + ((rest.take j).map Image.height).sum + dy := by
        simp [List.take_succ_cons]
        omega
      rw [pasteAll, hcoord]
      exact ih j hj (c0.paste img 0 offset) (offset + img.height) x dy
        (by simpa using hx) (by simpa using hdy)

/-! Characterizations of the two function bodies. -/

/-- One strip iteration succeeds exactly when the encode succeeds, and the
returned buffer holds the encoded bytes rewound to position 0. -/
lemma step_ok {β : Type} (c : Codec β) (i : Image) (fmt : String) (buf : ByteBuffer β)
    (h : (c.save i fmt).map (fun b => b.seek 0) = .ok buf) :
    c.encode i fmt = .ok buf.data ∧ buf.pos = 0 := by
  unfold Codec.save at h
  cases henc : c.encode i fmt with
  | error e =>
    rw [henc] at h
    simp only [Except.map] at h
    cases h
  | ok d =>
    rw [henc] at h
    simp only [Except.map] at h
    cases h
    exact ⟨rfl, rfl⟩

/-- Converse direction of `step_ok`. -/
lemma step_ok_of_encode {β : Type} (c : Codec β) (i : Image) (fmt : String) (d : β)
    (henc : c.encode i fmt = .ok d) :
    (c.save i fmt).map (fun b => b.seek 0) = .ok { data := d, pos := 0 } := by
  unfold Codec.save
  rw [henc]
  rfl

/-- With a successful decode and all three checks passing, the body of
`biggify_image` is exactly the strip loop. -/
lemma biggifyBody_eq_loop {β : Type} (c : Codec β) (image_bytes : β) (rows : Int)
    (sf osf : ℚ) (img : Image) (hdec : c.decode image_bytes = .ok img)
    (h1 : ¬ rows ≤ 0) (h2 : (1 : ℚ) ≤ sf ∧ sf ≤ 3) (h3 : (1 : ℚ) / 2 ≤ osf ∧ osf ≤ 4) :
    biggifyBody c image_bytes rows sf osf =
      mapE (fun r =>
          (c.save (rescaleStrip osf (cropStrip (stretchImage img sf) rows r))
              (outputFormat img.format)).map fun buf => buf.seek 0)
        (List.range rows.toNat) := by
  unfold biggifyBody
  rw [hdec]
  simp only [Except.bind]
  rw [if_neg h1, if_neg (not_not_intro h2), if_neg (not_not_intro h3)]

/-- Every buffer in the output of `biggify_image` is an encode, in the
original format with PNG fallback, of one of the rescaled crop strips,
rewound to position 0. -/
lemma biggify_mem {β : Type} (c : Codec β) (image_bytes : β) (rows : Int) (sf osf : ℚ)
    (buf : ByteBuffer β) (h : buf ∈ biggify_image c image_bytes rows sf osf) :
    ∃ img, c.decode image_bytes = .ok img ∧
      ∃ r ∈ List.range rows.toNat,
        c.encode (rescaleStrip osf (cropStrip (stretchImage img sf) rows r))
            (outputFormat img.format) = .ok buf.data ∧
          buf.pos = 0 := by
  unfold biggify_image at h
  cases hb : biggifyBody c image_bytes rows sf osf with
  | error e => rw [hb] at h; cases h
  | ok l =>
    rw [hb] at h
    unfold biggifyBody at hb
    cases hd : c.decode image_bytes with
    | error e => rw [hd] at hb; cases hb
    | ok img =>
      rw [hd] at hb
      simp only [Except.bind] at hb
      by_cases c1 : rows ≤ 0
      · rw [if_pos c1] at hb; cases hb; cases h
      · rw [if_neg c1] at hb
        by_cases c2 : ¬ ((1 : ℚ) ≤ sf ∧ sf ≤ 3)
        · rw [if_pos c2] at hb; cases hb; cases h
        · rw [if_neg c2] at hb
          by_cases c3 : ¬ ((1 : ℚ) / 2 ≤ osf ∧ osf ≤ 4)
          · rw [if_pos c3] at hb; cases hb; cases h
          · rw [if_neg c3] at hb
            rcases mapE_mem _ _ _ hb buf h with ⟨r, hr, hstep⟩
            rcases step_ok c _ _ buf hstep with ⟨henc, hpos⟩
            exact ⟨img, rfl, r, hr, henc, hpos⟩

/-- With a successful decode, valid parameters and a total encoder, the
whole body succeeds and yields one buffer per strip index. -/
lemma biggify_ok_of_valid {β : Type} (c : Codec β) (image_bytes : β) (rows : Int)
    (sf osf : ℚ) (img : Image) (hdec : c.decode image_bytes = .ok img)
    (h1 : ¬ rows ≤ 0) (h2 : (1 : ℚ) ≤ sf ∧ sf ≤ 3) (h3 : (1 : ℚ) / 2 ≤ osf ∧ osf ≤ 4)
    (henc : ∀ i fmt, ∃ d, c.encode i fmt = .ok d) :
    ∃ l, biggifyBody c image_bytes rows sf osf = .ok l ∧
      biggify_image c image_bytes rows sf osf = l ∧ l.length = rows.toNat := by
  rw [biggifyBody_eq_loop c image_bytes rows sf osf img hdec h1 h2 h3]
  rcases mapE_ok _ (List.range rows.toNat)
      (fun r _ => by
        rcases henc (rescaleStrip osf (cropStrip (stretchImage img sf) rows r))
          (outputFormat img.format) with ⟨d, hd⟩
        exact ⟨{ data := d, pos := 0 }, step_ok_of_encode c _ _ d hd⟩) with ⟨l, hl⟩
  refine ⟨l, hl, ?_, ?_⟩
  · unfold biggify_image
    rw [biggifyBody_eq_loop c image_bytes rows sf osf img hdec h1 h2 h3, hl]
  · rw [mapE_length _ _ _ hl, List.length_range]

/-- The body of `merge_images`, after a successful decode of every
element, is one save of the pasted canvas as PNG, rewound. -/
lemma mergeBody_eq {β : Type} (c : Codec β) (image_bytes_list : List β)
    (imgs : List Image) (first : Image) (hdec : mapE c.decode image_bytes_list = .ok imgs)
    (hfirst : imgs.head? = some first) :
    mergeBody c image_bytes_list =
      (c.save (pasteAll (Image.new ("RGB") first.width ((imgs.map Image.height).sum)) 0 imgs)
          ("PNG")).map fun buf => buf.seek 0 := by
  unfold mergeBody
  rw [hdec]
  simp only [Except.bind]
  rw [hfirst]

/-- Every successful result of `merge_images` is a PNG encode of some
raster, rewound to position 0. -/
lemma merge_images_some {β : Type} (c : Codec β) (image_bytes_list : List β)
    (buf : ByteBuffer β) (h : merge_images c image_bytes_list = some buf) :
    ∃ img, c.encode img ("PNG") = .ok buf.data ∧ buf.pos = 0 := by
  unfold merge_images at h
  by_cases he : image_bytes_list.isEmpty
  · rw [if_pos he] at h; cases h
  · rw [if_neg he] at h
    cases hb : mergeBody c image_bytes_list with
    | error e => rw [hb] at h; cases h
    | ok b2 =>
      rw [hb] at h
      cases h
      unfold mergeBody at hb
      cases hd : mapE c.decode image_bytes_list with
      | error e => rw [hd] at hb; cases hb
      | ok imgs =>
        rw [hd] at hb
        simp only [Except.bind] at hb
        cases hh : imgs.head? with
        | none => rw [hh] at hb; cases hb
        | some first =>
          rw [hh] at hb
          rcases step_ok c _ _ _ hb with ⟨h1, h2⟩
          exact ⟨_, h1, h2⟩

/-! Concrete fixtures used by the witnesses. -/

/-- A concrete 150 by 101 raster. -/
def testImage101 : Image :=
  { width := 150, height := 101, mode := ("RGB"), format := some ("PNG"), pix := fun _ _ => 0 }

/-- A concrete 100 by 40 raster, matching the spec's width-100 example. -/
def testImage100 : Image :=
  { width := 100, height := 40, mode := ("RGB"), format := some ("PNG"), pix := fun _ _ => 0 }

/-- A concrete 2 by 2 raster whose container format is JPEG. -/
def testImage2 : Image :=
  { width := 2, height := 2, mode := ("RGB"), format := some ("JPEG"), pix := fun x y => x + 2 * y }

/-! Claim theorems. -/

/-- C1: for every stretched image height `H` and strip count `n > 0`, the
strip bounds computed by `biggify_image` — `top = floor(r * H/n)` and
`bottom = floor((r+1) * H/n)`, the last bottom forced to `H` — tile
`[0, H)` exactly: the first top is 0, each top is the floor of `r * H/n`,
consecutive strips share their boundary with no gap or overlap, the last
bottom is `H`, no strip has negative extent, tops are nondecreasing in
`r` so strips come in top-to-bottom order, the strip heights sum to
exactly `H` (for `H = 101`, `n = 4` the heights are 25, 25, 25, 26), and
every crop box spans the full stretched width. -/
theorem strips_tile_exactly (H n : ℕ) (hn : 0 < n) (stretched : Image)
    (hH : stretched.height = H) :
    stripTop H (n : Int) 0 = 0 ∧
    (∀ r : ℕ, stripTop H (n : Int) r = r * H / n) ∧
    (∀ r : ℕ, r + 1 < n → stripBottom H (n : Int) r = stripTop H (n : Int) (r + 1)) ∧
    stripBottom H (n : Int) (n - 1) = H ∧
    (∀ r : ℕ, r < n → stripTop H (n : Int) r ≤ stripBottom H (n : Int) r) ∧
    (∀ r s : ℕ, r ≤ s → stripTop H (n : Int) r ≤ stripTop H (n : Int) s) ∧
    ((List.range n).map fun r => stripBottom H (n : Int) r - stripTop H (n : Int) r).sum = H ∧
    (∀ r : ℕ, (cropStrip stretched (n : Int) r).width = stretched.width ∧
      (cropStrip stretched (n : Int) r).height =
        stripBottom H (n : Int) r - stripTop H (n : Int) r) ∧
    ((List.range 4).map fun r =>
      stripBottom 101 ((4 : ℕ) : Int) r - stripTop 101 ((4 : ℕ) : Int) r) = [25, 25, 25, 26] := by
  subst hH
  refine ⟨?_, ?_, ?_, ?_, ?_, ?_, ?_, ?_, ?_⟩
  · simp [stripTop_eq]
  · intro r
    exact stripTop_eq _ n r
  · intro r h
    exact stripBottom_of_ne _ n r (by omega)
  · exact stripBottom_last _ n hn
  · intro r hr
    rw [stripTop_eq, stripBottom_eq _ n r hn hr]
    exact Nat.div_le_div_right (Nat.mul_le_mul_right _ (by omega))
  · intro r s hrs
    exact stripTop_mono _ n hrs
  · exact strip_heights_sum _ n hn
  · intro r
    exact cropStrip_dims stretched _ r
  · have e : ∀ r : ℕ, r < 4 →
        stripBottom 101 ((4 : ℕ) : Int) r - stripTop 101 ((4 : ℕ) : Int) r =
          (r + 1) * 101 / 4 - r * 101 / 4 := by
      intro r hr
      rw [stripBottom_eq 101 4 r (by decide) hr, stripTop_eq]
    rw [show List.range 4 = [0, 1, 2, 3] by decide]
    simp only [List.map_cons, List.map_nil]
    rw [e 0 (by decide), e 1 (by decide), e 2 (by decide), e 3 (by decide)]

/-- Witness for C1 at the spec's own example: height 101 split into 4
strips of heights 25, 25, 25, 26 covering 0 to 101 with no overlap. -/
theorem strips_tile_exactly_witness :
    0 < 4 ∧
    stripTop 101 ((4 : ℕ) : Int) 0 = 0 ∧
    stripBottom 101 ((4 : ℕ) : Int) 3 = 101 ∧
    ((List.range 4).map fun r =>
      stripBottom 101 ((4 : ℕ) : Int) r - stripTop 101 ((4 : ℕ) : Int) r).sum = 101 ∧
    ((List.range 4).map fun r =>
      stripBottom 101 ((4 : ℕ) : Int) r - stripTop 101 ((4 : ℕ) : Int) r) = [25, 25, 25, 26] ∧
    (cropStrip testImage101 ((4 : ℕ) : Int) 2).width = 150 := by
  obtain ⟨a1, _, _, a4, _, _, a7, a8, a9⟩ :=
    strips_tile_exactly 101 4 (by decide) testImage101 rfl
  exact ⟨by decide, a1, a4, a7, a9, (a8 2).1⟩

/-- C2: whenever `rows ≤ 0`, or the stretch factor lies outside
`[1, 3]`, or the output scale factor lies outside `[1/2, 4]`, the result
of `biggify_image` is the empty list, regardless of the bytes supplied
and of the codec's behaviour on them; the three checks sit before any
transform work in the order rows, stretch factor, output scale factor,
each returning immediately. -/
theorem biggify_rejects_invalid {β : Type} (c : Codec β) (image_bytes : β) (rows : Int)
    (sf osf : ℚ)
    (h : rows ≤ 0 ∨ ¬ ((1 : ℚ) ≤ sf ∧ sf ≤ 3) ∨ ¬ ((1 : ℚ) / 2 ≤ osf ∧ osf ≤ 4)) :
    biggify_image c image_bytes rows sf osf = [] := by
  unfold biggify_image biggifyBody
  cases hd : c.decode image_bytes with
  | error e => rfl
  | ok img =>
    simp only [Except.bind]
    by_cases c1 : rows ≤ 0
    · rw [if_pos c1]
    · rw [if_neg c1]
      by_cases c2 : ¬ ((1 : ℚ) ≤ sf ∧ sf ≤ 3)
      · rw [if_pos c2]
      · rw [if_neg c2]
        have c3 : ¬ ((1 : ℚ) / 2 ≤ osf ∧ osf ≤ 4) := by tauto
        rw [if_pos c3]

/-- Witness for C2 at the spec's examples: rows 0, rows -1, stretch
factor 0.5, stretch factor 5.0 and output scale factor 0.1 each yield an
empty result, on undecodable and on decodable bytes alike. -/
theorem biggify_rejects_invalid_witness :
    biggify_image SymCodec (SymBytes.raw [0]) 0 (3 / 2) 2 = [] ∧
    biggify_image SymCodec (SymBytes.raw [0]) (-1) (3 / 2) 2 = [] ∧
    biggify_image SymCodec (SymBytes.raw [0]) 4 (1 / 2) 2 = [] ∧
    biggify_image SymCodec (SymBytes.raw [0]) 4 5 2 = [] ∧
    biggify_image SymCodec (SymBytes.raw [0]) 4 (3 / 2) (1 / 10) = [] ∧
    biggify_image SymCodec (SymBytes.enc ("PNG") testImage101) 0 (3 / 2) 2 = [] := by
  refine ⟨?_, ?_, ?_, ?_, ?_, ?_⟩
  · exact biggify_rejects_invalid SymCodec _ _ _ _ (Or.inl (by decide))
  · exact biggify_rejects_invalid SymCodec _ _ _ _ (Or.inl (by decide))
  · exact biggify_rejects_invalid SymCodec _ _ _ _ (Or.inr (Or.inl (by norm_num)))
  · exact biggify_rejects_invalid SymCodec _ _ _ _ (Or.inr (Or.inl (by norm_num)))
  · exact biggify_rejects_invalid SymCodec _ _ _ _ (Or.inr (Or.inr (by norm_num)))
  · exact biggify_rejects_invalid SymCodec _ _ _ _ (Or.inl (by decide))

/-- C8: merging an empty list fails immediately with the `none` failure
signal, before any decode is attempted — the result is `none` for every
codec, including one whose decode never succeeds. -/
theorem merge_empty_fails {β : Type} (c : Codec β) : merge_images c ([] : List β) = none := rfl

/-- C4: for every decodable image, every `rows > 0`, every stretch factor
in `[1, 3]` and every output scale factor in `[1/2, 4]`, over any codec
whose encoder succeeds and whose encodes decode back, `biggify_image`
returns exactly `rows` buffers, each of which is decodable as an image. -/
theorem biggify_count_and_decodable {β : Type} (c : Codec β) (image_bytes : β)
    (rows : Int) (sf osf : ℚ) (img : Image)
    (hdec : c.decode image_bytes = .ok img) (hrows : 0 < rows)
    (hsf : (1 : ℚ) ≤ sf ∧ sf ≤ 3) (hosf : (1 : ℚ) / 2 ≤ osf ∧ osf ≤ 4)
    (hcodec : ∀ i fmt, ∃ d, c.encode i fmt = .ok d ∧ ∃ j, c.decode d = .ok j) :
    ((biggify_image c image_bytes rows sf osf).length : Int) = rows ∧
    ∀ buf ∈ biggify_image c image_bytes rows sf osf, ∃ j, c.decode buf.data = .ok j := by
  have henc : ∀ i fmt, ∃ d, c.encode i fmt = .ok d :=
    fun i fmt => (hcodec i fmt).imp fun d hd => hd.1
  rcases biggify_ok_of_valid c image_bytes rows sf osf img hdec (by omega) hsf hosf henc with
    ⟨l, hbody, hout, hlen⟩
  constructor
  · rw [hout, hlen]
    exact Int.toNat_of_nonneg (by omega)
  · intro buf hbuf
    rcases biggify_mem c image_bytes rows sf osf buf hbuf with
      ⟨img2, hdec2, r, hr, hencb, hpos⟩
    rcases hcodec (rescaleStrip osf (cropStrip (stretchImage img2 sf) rows r))
      (outputFormat img2.format) with ⟨d, hd, j, hj⟩
    have hdb : d = buf.data := by
      rw [hd] at hencb
      cases hencb
      rfl
    exact ⟨j, hdb ▸ hj⟩

/-- Witness for C4: a concrete 150 by 101 PNG split into 3 rows with
stretch factor 1.5 and output scale 2 yields exactly 3 buffers, and the
first-strip buffer count is checked through the theorem itself. -/
theorem biggify_count_and_decodable_witness :
    SymCodec.decode (SymBytes.enc ("PNG") testImage101) = .ok testImage101 ∧
    ((biggify_image SymCodec (SymBytes.enc ("PNG") testImage101) 3 (3 / 2) 2).length : Int) = 3 := by
  refine ⟨rfl, ?_⟩
  exact (biggify_count_and_decodable SymCodec (SymBytes.enc ("PNG") testImage101) 3 (3 / 2) 2
    testImage101 rfl (by decide) (by norm_num) (by norm_num)
    (fun i fmt => ⟨SymBytes.enc fmt i, rfl, { i with format := some fmt }, rfl⟩)).1

/-- C5: any exception raised inside either function body is caught at the
function boundary and collapsed to the uniform failure signal — the empty
list for `biggify_image`, `none` for `merge_images` — with no partial
output; in particular malformed bytes, whose decode raises, yield the
failure signal from both functions. -/
theorem exceptions_collapse {β : Type} (c : Codec β) :
    (∀ (image_bytes : β) (rows : Int) (sf osf : ℚ) (e : String),
      biggifyBody c image_bytes rows sf osf = .error e →
        biggify_image c image_bytes rows sf osf = []) ∧
    (∀ (l : List β) (e : String), mergeBody c l = .error e → merge_images c l = none) ∧
    (∀ (image_bytes : β) (rows : Int) (sf osf : ℚ) (e : String),
      c.decode image_bytes = .error e → biggify_image c image_bytes rows sf osf = []) ∧
    (∀ (l : List β) (b : β) (e : String), b ∈ l → c.decode b = .error e →
      merge_images c l = none) := by
  refine ⟨?_, ?_, ?_, ?_⟩
  · intro image_bytes rows sf osf e h
    unfold biggify_image
    rw [h]
  · intro l e h
    unfold merge_images
    by_cases he : l.isEmpty
    · rw [if_pos he]
    · rw [if_neg he, h]
  · intro image_bytes rows sf osf e h
    unfold biggify_image biggifyBody
    rw [h]
    rfl
  · intro l b e hb hdec
    rcases mapE_error c.decode l b e hb hdec with ⟨msg, hmsg⟩
    have hbody : mergeBody c l = .error msg := by
      unfold mergeBody
      rw [hmsg]
      rfl
    unfold merge_images
    by_cases he : l.isEmpty
    · rw [if_pos he]
    · rw [if_neg he, hbody]

/-- Witness for C5: concrete malformed bytes make the decode raise, the
body of each function fail, and both functions return their failure
signal with no partial output. -/
theorem exceptions_collapse_witness :
    SymCodec.decode (SymBytes.raw [7]) = .error ("cannot identify image file") ∧
    biggifyBody SymCodec (SymBytes.raw [7]) 4 (3 / 2) 2 =
      .error ("cannot identify image file") ∧
    biggify_image SymCodec (SymBytes.raw [7]) 4 (3 / 2) 2 = [] ∧
    mergeBody SymCodec [SymBytes.raw [7]] = .error ("cannot identify image file") ∧
    merge_images SymCodec [SymBytes.raw [7]] = none := by
  have h := exceptions_collapse SymCodec
  refine ⟨rfl, rfl, ?_, rfl, ?_⟩
  · exact h.1 (SymBytes.raw [7]) 4 (3 / 2) 2 ("cannot identify image file") rfl
  · exact h.2.2.2 [SymBytes.raw [7]] (SymBytes.raw [7]) ("cannot identify image file")
      (List.mem_singleton.mpr rfl) rfl

/-- C6: the stretched image's width is the truncating integer cast of
`width * stretchFactor` and its height is unchanged; every crop strip has
the full stretched width before rescaling; when the output scale factor
is not 1 the rescaled strip's dimensions are the truncating integer casts
of the crop dimensions times the factor — the width of the crop width
times it, the height of the crop height times it; concretely, width 100
with stretch factor 1.5 gives stretched width 150, and 150 rescaled by
factor 2 gives 300. -/
theorem stretch_and_rescale_widths (img : Image) (sf osf : ℚ) (rows : Int) (r : Nat)
    (hsf : (1 : ℚ) ≤ sf ∧ sf ≤ 3) :
    (stretchImage img sf).width = stretchedWidth img.width sf ∧
    (stretchImage img sf).height = img.height ∧
    ((stretchedWidth img.width sf : Int) = pyInt ((img.width : ℚ) * sf)) ∧
    (cropStrip (stretchImage img sf) rows r).width = stretchedWidth img.width sf ∧
    (osf ≠ 1 → (rescaleStrip osf (cropStrip (stretchImage img sf) rows r)).width =
      (pyInt ((stretchedWidth img.width sf : ℚ) * osf)).toNat) ∧
    (osf ≠ 1 → (rescaleStrip osf (cropStrip (stretchImage img sf) rows r)).height =
      (pyInt (((cropStrip (stretchImage img sf) rows r).height : ℚ) * osf)).toNat) ∧
    stretchedWidth 100 (3 / 2) = 150 ∧
    (pyInt ((150 : ℚ) * 2)).toNat = 300 := by
  have hq : (0 : ℚ) ≤ (img.width : ℚ) * sf :=
    mul_nonneg (Nat.cast_nonneg _) (by linarith [hsf.1])
  refine ⟨rfl, ?_, ?_, ?_, ?_, ?_, ?_, ?_⟩
  · simp [stretchImage, Image.resize]
  · unfold stretchedWidth
    rw [Int.toNat_of_nonneg]
    rw [pyInt_of_nonneg hq]
    exact Int.floor_nonneg.mpr hq
  · exact (cropStrip_dims (stretchImage img sf) rows r).1
  · intro hosf
    unfold rescaleStrip
    rw [if_pos hosf]
    show (pyInt (((cropStrip (stretchImage img sf) rows r).width : ℚ) * osf)).toNat = _
    rw [(cropStrip_dims (stretchImage img sf) rows r).1]
    rfl
  · intro hosf
    unfold rescaleStrip
    rw [if_pos hosf]
    rfl
  · norm_num [stretchedWidth, pyInt]
    decide
  · norm_num [pyInt]
    decide

/-- Witness for C6 at the spec's example: a width-100, height-40 image,
stretch factor 1.5, output scale factor 2, four rows, first strip — the
strip rescales to width 300 and its crop height 10 rescales to 20. -/
theorem stretch_and_rescale_widths_witness :
    (stretchImage testImage100 (3 / 2)).width = stretchedWidth 100 (3 / 2) ∧
    (stretchImage testImage100 (3 / 2)).height = 40 ∧
    (cropStrip (stretchImage testImage100 (3 / 2)) 4 0).width = stretchedWidth 100 (3 / 2) ∧
    stretchedWidth 100 (3 / 2) = 150 ∧
    (rescaleStrip 2 (cropStrip (stretchImage testImage100 (3 / 2)) 4 0)).width = 300 ∧
    (cropStrip (stretchImage testImage100 (3 / 2)) 4 0).height = 10 ∧
    (rescaleStrip 2 (cropStrip (stretchImage testImage100 (3 / 2)) 4 0)).height = 20 := by
  obtain ⟨w1, w2, _, w4, w5, w5h, w6, w7⟩ :=
    stretch_and_rescale_widths testImage100 (3 / 2) 2 4 0 (by norm_num)
  have hch : (cropStrip (stretchImage testImage100 (3 / 2)) 4 0).height = 10 := by
    rw [(cropStrip_dims (stretchImage testImage100 (3 / 2)) 4 0).2]
    show stripBottom 40 ((4 : ℕ) : Int) 0 - stripTop 40 ((4 : ℕ) : Int) 0 = 10
    rw [stripBottom_eq 40 4 0 (by decide) (by decide), stripTop_eq]
  refine ⟨w1, w2, w4, w6, ?_, hch, ?_⟩
  · rw [w5 (by norm_num)]
    show (pyInt ((stretchedWidth 100 (3 / 2) : ℚ) * 2)).toNat = 300
    rw [w6]
    exact w7
  · rw [w5h (by norm_num), hch]
    norm_num [pyInt]
    decide

/-- C3: for every non-empty list of bytes that all decode, `merge_images`
succeeds with the encoded pasted canvas rewound to position 0; the canvas
has the width of the first decoded image (no width validation anywhere in
the hypotheses: mismatched widths are a non-error outcome), height equal
to the sum of all decoded heights, a truecolor RGB mode with no alpha,
and inside the `i`-th vertical band the canvas shows exactly the `i`-th
image's pixels, pasted at horizontal offset 0 and vertical offset equal
to the cumulative height of the previously pasted images, in input list
order. -/
theorem merge_stacks_vertically {β : Type} (c : Codec β) (l : List β)
    (imgs : List Image) (first : Image) (d : β)
    (hne : l ≠ [])
    (hdec : mapE c.decode l = .ok imgs)
    (hfirst : imgs.head? = some first)
    (henc : c.encode
      (pasteAll (Image.new ("RGB") first.width ((imgs.map Image.height).sum)) 0 imgs)
      ("PNG") = .ok d) :
    merge_images c l = some { data := d, pos := 0 } ∧
    (pasteAll (Image.new ("RGB") first.width ((imgs.map Image.height).sum)) 0 imgs).width =
      first.width ∧
    (pasteAll (Image.new ("RGB") first.width ((imgs.map Image.height).sum)) 0 imgs).height =
      (imgs.map Image.height).sum ∧
    (pasteAll (Image.new ("RGB") first.width ((imgs.map Image.height).sum)) 0 imgs).mode =
      ("RGB") ∧
    (∀ (i : ℕ) (hi : i < imgs.length) (x dy : ℕ),
      x < (imgs.get ⟨i, hi⟩).width → dy < (imgs.get ⟨i, hi⟩).height →
      (pasteAll (Image.new ("RGB") first.width ((imgs.map Image.height).sum)) 0 imgs).pix
          x (((imgs.take i).map Image.height).sum + dy) =
        (imgs.get ⟨i, hi⟩).pix x dy) := by
  refine ⟨?_, (pasteAll_shape imgs _ 0).1, (pasteAll_shape imgs _ 0).2.1,
    (pasteAll_shape imgs _ 0).2.2, ?_⟩
  · unfold merge_images
    rw [if_neg (by simp [List.isEmpty_iff, hne])]
    rw [mergeBody_eq c l imgs first hdec hfirst, step_ok_of_encode c _ _ d henc]
  · intro i hi x dy hx hdy
    have h := pasteAll_pix_band imgs i hi
      (Image.new ("RGB") first.width ((imgs.map Image.height).sum)) 0 x dy hx hdy
    rwa [Nat.zero_add] at h

/-- A concrete strip of height 50 and width 7. -/
def stripA : Image :=
  { width := 7, height := 50, mode := ("RGB"), format := some ("PNG"),
    pix := fun x y => 100 + x + y }

/-- A concrete strip of height 60 and width 7. -/
def stripB : Image :=
  { width := 7, height := 60, mode := ("RGB"), format := some ("PNG"),
    pix := fun x y => 200 + x + y }

/-- The canvas obtained by merging `stripA` above `stripB`. -/
def mergedAB : Image :=
  pasteAll (Image.new ("RGB") stripA.width (([stripA, stripB].map Image.height).sum)) 0
    [stripA, stripB]

/-- Witness for C3 at the spec's example: strips of heights 50 and 60 and
equal width 7 merge into one 7 by 110 image, with the first strip's
pixels in rows 0 to 49 and the second's in rows 50 to 109. -/
theorem merge_stacks_vertically_witness :
    merge_images SymCodec [SymBytes.enc ("PNG") stripA, SymBytes.enc ("PNG") stripB] =
      some { data := SymBytes.enc ("PNG") mergedAB, pos := 0 } ∧
    mergedAB.width = 7 ∧
    mergedAB.height = 110 ∧
    mergedAB.mode = ("RGB") ∧
    mergedAB.pix 3 0 = stripA.pix 3 0 ∧
    mergedAB.pix 3 49 = stripA.pix 3 49 ∧
    mergedAB.pix 3 50 = stripB.pix 3 0 ∧
    mergedAB.pix 2 109 = stripB.pix 2 59 := by
  obtain ⟨m1, m2, m3, m4, m5⟩ := merge_stacks_vertically SymCodec
    [SymBytes.enc ("PNG") stripA, SymBytes.enc ("PNG") stripB] [stripA, stripB] stripA
    (SymBytes.enc ("PNG") mergedAB) (List.cons_ne_nil _ _) rfl rfl rfl
  exact ⟨m1, m2, m3, m4,
    m5 0 (by decide) 3 0 (by decide) (by decide),
    m5 0 (by decide) 3 49 (by decide) (by decide),
    m5 1 (by decide) 3 0 (by decide) (by decide),
    m5 1 (by decide) 2 59 (by decide) (by decide)⟩

/-- C9: `merge_images` imposes no minimum of two inputs: a singleton list
whose element decodes merges successfully into a PNG-encoded RGB canvas
of exactly the decoded image's width and height, showing that image's
pixels. -/
theorem merge_singleton_ok {β : Type} (c : Codec β) (b : β) (img : Image) (d : β)
    (hdec : c.decode b = .ok img)
    (henc : c.encode
      (pasteAll (Image.new ("RGB") img.width (([img].map Image.height).sum)) 0 [img])
      ("PNG") = .ok d) :
    merge_images c [b] = some { data := d, pos := 0 } ∧
    (pasteAll (Image.new ("RGB") img.width (([img].map Image.height).sum)) 0 [img]).width =
      img.width ∧
    (pasteAll (Image.new ("RGB") img.width (([img].map Image.height).sum)) 0 [img]).height =
      img.height ∧
    (pasteAll (Image.new ("RGB") img.width (([img].map Image.height).sum)) 0 [img]).mode =
      ("RGB") ∧
    (∀ x y : ℕ, x < img.width → y < img.height →
      (pasteAll (Image.new ("RGB") img.width (([img].map Image.height).sum)) 0 [img]).pix
          x y = img.pix x y) := by
  have hdecList : mapE c.decode [b] = .ok [img] := by
    show (c.decode b).bind _ = _
    rw [hdec]
    rfl
  refine ⟨?_, (pasteAll_shape [img] _ 0).1, (pasteAll_shape [img] _ 0).2.1,
    (pasteAll_shape [img] _ 0).2.2, ?_⟩
  · unfold merge_images
    rw [if_neg (by simp [List.isEmpty_iff])]
    rw [mergeBody_eq c [b] [img] img hdecList rfl, step_ok_of_encode c _ _ d henc]
  · intro x y hx hy
    have h := pasteAll_pix_band [img] 0 (by simp)
      (Image.new ("RGB") img.width (([img].map Image.height).sum)) 0 x y hx hy
    simpa using h

/-- The canvas obtained by merging the singleton list holding `stripA`. -/
def mergedA : Image :=
  pasteAll (Image.new ("RGB") stripA.width (([stripA].map Image.height).sum)) 0 [stripA]

/-- Witness for C9: merging the singleton list holding the height-50
strip succeeds and reproduces its dimensions and pixels. -/
theorem merge_singleton_ok_witness :
    merge_images SymCodec [SymBytes.enc ("PNG") stripA] =
      some { data := SymBytes.enc ("PNG") mergedA, pos := 0 } ∧
    mergedA.width = 7 ∧
    mergedA.height = 50 ∧
    mergedA.mode = ("RGB") ∧
    mergedA.pix 3 20 = stripA.pix 3 20 := by
  obtain ⟨s1, s2, s3, s4, s5⟩ := merge_singleton_ok SymCodec (SymBytes.enc ("PNG") stripA)
    stripA (SymBytes.enc ("PNG") mergedA) rfl rfl
  exact ⟨s1, s2, s3, s4, s5 3 20 (by decide) (by decide)⟩

/-- The single strip produced from `testImage2` with one row, stretch
factor 1 and output scale factor 1. -/
def demoStrip : Image := rescaleStrip 1 (cropStrip (stretchImage testImage2 1) 1 0)

/-- The buffer holding the encoded `demoStrip` in the source format. -/
def demoBuf : ByteBuffer SymBytes := { data := SymBytes.enc ("JPEG") demoStrip, pos := 0 }

/-- Concrete evaluation of `biggify_image` on the JPEG test raster with
one row and both factors 1: a single rewound buffer holding the strip
encoded in the source's JPEG format. -/
lemma biggify_demo_eval :
    biggify_image SymCodec (SymBytes.enc ("JPEG") testImage2) 1 1 1 = [demoBuf] := by
  unfold biggify_image
  rw [biggifyBody_eq_loop SymCodec (SymBytes.enc ("JPEG") testImage2) 1 1 1 testImage2 rfl
    (by decide) (by norm_num) (by norm_num)]
  rfl

/-- The canvas obtained by merging the singleton JPEG test raster. -/
def demoMergeCanvas : Image :=
  pasteAll (Image.new ("RGB") testImage2.width (([testImage2].map Image.height).sum)) 0
    [testImage2]

/-- The buffer holding `demoMergeCanvas` encoded as PNG. -/
def demoMergeBuf : ByteBuffer SymBytes :=
  { data := SymBytes.enc ("PNG") demoMergeCanvas, pos := 0 }

/-- Concrete evaluation of `merge_images` on the singleton JPEG test
raster: the pasted canvas re-encoded as PNG, rewound. -/
lemma merge_demo_eval :
    merge_images SymCodec [SymBytes.enc ("JPEG") testImage2] = some demoMergeBuf := rfl

/-- C7: every buffer produced by `biggify_image` is the encode of one of
the strips in the decoded image's original format with PNG as the
fallback — a known (non-empty) format is used as is, an unknown format
falls back to PNG — whereas every buffer produced by `merge_images` is a
PNG encode regardless of the input formats. -/
theorem encode_formats {β : Type} (c : Codec β) :
    (∀ (image_bytes : β) (rows : Int) (sf osf : ℚ) (img : Image) (buf : ByteBuffer β),
      c.decode image_bytes = .ok img →
      buf ∈ biggify_image c image_bytes rows sf osf →
      ∃ r ∈ List.range rows.toNat,
        c.encode (rescaleStrip osf (cropStrip (stretchImage img sf) rows r))
            (outputFormat img.format) = .ok buf.data) ∧
    (∀ s : String, ¬ s = ("") → outputFormat (some s) = s) ∧
    outputFormat none = ("PNG") ∧
    (∀ (l : List β) (buf : ByteBuffer β), merge_images c l = some buf →
      ∃ img, c.encode img ("PNG") = .ok buf.data) := by
  refine ⟨?_, ?_, rfl, ?_⟩
  · intro image_bytes rows sf osf img buf hdec hbuf
    rcases biggify_mem c image_bytes rows sf osf buf hbuf with
      ⟨img2, hdec2, r, hr, henc, _⟩
    have himg : img2 = img := by
      rw [hdec] at hdec2
      cases hdec2
      rfl
    exact ⟨r, hr, himg ▸ henc⟩
  · intro s hs
    show (if s = ("") then ("PNG") else s) = s
    rw [if_neg hs]
  · intro l buf h
    rcases merge_images_some c l buf h with ⟨i, hi, _⟩
    exact ⟨i, hi⟩

/-- Witness for C7: the JPEG test raster's strip buffer is encoded as
JPEG (the source format), a known non-empty format is kept, an unknown
format falls back to PNG, and the merge of the same JPEG input is
encoded as PNG. -/
theorem encode_formats_witness :
    SymCodec.decode (SymBytes.enc ("JPEG") testImage2) = .ok testImage2 ∧
    demoBuf ∈ biggify_image SymCodec (SymBytes.enc ("JPEG") testImage2) 1 1 1 ∧
    SymCodec.encode demoStrip (outputFormat testImage2.format) = .ok demoBuf.data ∧
    outputFormat (some ("JPEG")) = ("JPEG") ∧
    outputFormat none = ("PNG") ∧
    merge_images SymCodec [SymBytes.enc ("JPEG") testImage2] = some demoMergeBuf ∧
    SymCodec.encode demoMergeCanvas ("PNG") = .ok demoMergeBuf.data := by
  have h := encode_formats SymCodec
  have hmem : demoBuf ∈ biggify_image SymCodec (SymBytes.enc ("JPEG") testImage2) 1 1 1 := by
    rw [biggify_demo_eval]
    exact List.mem_singleton.mpr rfl
  exact ⟨rfl, hmem, rfl, h.2.1 ("JPEG") (by decide), h.2.2.1, merge_demo_eval, rfl⟩

/-- C10: every buffer returned by `biggify_image`, and the buffer
returned by a successful `merge_images`, is rewound to stream position 0,
so a consumer reads the encoded bytes from the beginning. -/
theorem buffers_rewound {β : Type} (c : Codec β) :
    (∀ (image_bytes : β) (rows : Int) (sf osf : ℚ) (buf : ByteBuffer β),
      buf ∈ biggify_image c image_bytes rows sf osf → buf.pos = 0) ∧
    (∀ (l : List β) (buf : ByteBuffer β), merge_images c l = some buf → buf.pos = 0) := by
  constructor
  · intro image_bytes rows sf osf buf hbuf
    rcases biggify_mem c image_bytes rows sf osf buf hbuf with ⟨img, _, r, _, _, hpos⟩
    exact hpos
  · intro l buf h
    rcases merge_images_some c l buf h with ⟨i, _, hp⟩
    exact hp

/-- Witness for C10: the concrete strip buffer and the concrete merge
buffer both sit at position 0. -/
theorem buffers_rewound_witness :
    demoBuf ∈ biggify_image SymCodec (SymBytes.enc ("JPEG") testImage2) 1 1 1 ∧
    demoBuf.pos = 0 ∧
    merge_images SymCodec [SymBytes.enc ("JPEG") testImage2] = some demoMergeBuf ∧
    demoMergeBuf.pos = 0 := by
  have hmem : demoBuf ∈ biggify_image SymCodec (SymBytes.enc ("JPEG") testImage2) 1 1 1 := by
    rw [biggify_demo_eval]
    exact List.mem_singleton.mpr rfl
  exact ⟨hmem, (buffers_rewound SymCodec).1 _ 1 1 1 demoBuf hmem, merge_demo_eval,
    (buffers_rewound SymCodec).2 _ demoMergeBuf merge_demo_eval⟩

end Biggify
